import Mathlib

/-!
Verification of the Kaleidoscope lexer and parser (a Rust implementation).

The definitions below are a shallow embedding of `src/lexer.rs`, `src/token.rs`,
`src/ast.rs` and `src/parser.rs`.  Machine `f64` values are modelled as exact
rationals (every numeric literal appearing in the properties below is a small
integer, exactly representable in `f64`).  The `io::Result` return types are
modelled with `Except`; the two error kinds produced by `Parser::log_err`
(`InvalidData` for `PE::Syntax` and `UnexpectedEof` for `PE::Eof`) are the
constructors of `ErrorKind`.  Recursive parser procedures take an explicit
fuel argument; running out of fuel is reported by the artificial
`ErrorKind.outOfFuel`, which is never produced when the fuel exceeds the
number of tokens (all concrete evaluations below use ample fuel).
-/

namespace Kaleidoscope

/-- Tokens, from `token.rs`.  `kdef` models `Token::Def` and `kext` models
the `extern`-keyword constructor (its Rust name cannot be used in Lean). -/
inductive Token where
  | binary
  | comma
  | comment
  | kdef
  | eof
  | kext
  | ident (name : String)
  | lparen
  | number (val : ℚ)
  | op (c : Char)
  | rparen
deriving DecidableEq, Repr

/-- Expressions, from `ast.rs` (`Expr`).  `var` models `Expr::Variable`. -/
inductive Expr where
  | binary (op : Char) (lhs rhs : Expr)
  | call (name : String) (args : List Expr)
  | number (val : ℚ)
  | var (name : String)
deriving Repr

/-- Prototype of a function, from `ast.rs`. -/
structure Prototype where
  name : String
  args : List String
  prec : Nat
  isOp : Bool
deriving DecidableEq, Repr

/-- A function definition (`ast.rs`, `FunctionAST`). -/
structure FunctionAST where
  proto : Prototype
  body : Option Expr
  isAnon : Bool
deriving Repr

/-- Char test for `'0'..='9' | 'a'..='f' | 'A'..='F'`, the Rust
`char::is_ascii_hexdigit`. -/
def isAsciiHexDigit (c : Char) : Bool :=
  c.isDigit || ('a' ≤ c && c ≤ 'f') || ('A' ≤ c && c ≤ 'F')

/-- Continuation predicate of `Lexer::lex_number`: the scan keeps going
while the character is `'.'` or an ASCII hex digit. -/
def numCont (c : Char) : Bool := c == '.' || isAsciiHexDigit c

/-- Continuation predicate of `Lexer::lex_ident`: the scan keeps going while
the character is `'_'` or alphanumeric (ASCII model of
`char::is_alphanumeric`; every input in the claims is ASCII). -/
def identCont (c : Char) : Bool := c == '_' || c.isAlphanum

/-- Splits a character list at the first `'e'`/`'E'`, returning the part
before it and, when the marker is present, the part after it. -/
def splitExp : List Char → List Char × Option (List Char)
  | [] => ([], none)
  | c :: rest =>
    if c = 'e' ∨ c = 'E' then ([], some rest)
    else
      let (m, e) := splitExp rest
      (c :: m, e)

/-- Splits a character list at the first `'.'`. -/
def splitDot : List Char → List Char × Option (List Char)
  | [] => ([], none)
  | c :: rest =>
    if c = '.' then ([], some rest)
    else
      let (m, e) := splitDot rest
      (c :: m, e)

/-- Reads a nonempty all-decimal-digit list as a natural number, `none`
otherwise. -/
def digitsToNat : List Char → Option Nat
  | cs =>
    if cs ≠ [] ∧ cs.all Char.isDigit then
      some (cs.foldl (fun n c => n * 10 + (c.toNat - '0'.toNat)) 0)
    else none

/-- Value of the mantissa part `digits ['.' digits]` (either side of the dot
may be empty, but not both), as an exact rational; `none` when malformed. -/
def parseMantissa (cs : List Char) : Option ℚ :=
  match splitDot cs with
  | (ip, none) => (digitsToNat ip).map fun n => (n : ℚ)
  | (ip, some fp) =>
    if ip = [] ∧ fp = [] then none
    else if ip.all Char.isDigit ∧ fp.all Char.isDigit then
      some ((ip.foldl (fun n c => n * 10 + (c.toNat - '0'.toNat)) 0 : ℚ) +
        (fp.foldl (fun n c => n * 10 + (c.toNat - '0'.toNat)) 0 : ℚ) / (10 : ℚ) ^ fp.length)
    else none

/-- Exact-value model of Rust `str::parse::<f64>` on the slices the lexer can
produce (characters drawn from `.`, `0`-`9`, `a`-`f`, `A`-`F`, so no signs and
no `inf`/`nan` words are reachable): `digits ['.' digits] [('e'|'E') digits]`.
All values named in the properties below are exactly representable in `f64`,
so the exact rational value coincides with the `f64` one there. -/
def rustParseF64 (cs : List Char) : Option ℚ :=
  match splitExp cs with
  | (m, none) => parseMantissa m
  | (m, some ecs) =>
    match parseMantissa m, digitsToNat ecs with
    | some mv, some ev => some (mv * (10 : ℚ) ^ ev)
    | _, _ => none

/-- Consumes characters through the first newline, as `Lexer::lex_comment`
does (the newline itself is consumed). -/
def dropComment : List Char → List Char
  | [] => []
  | c :: rest => if c = '\n' ∨ c = '\r' then rest else dropComment rest

/-- Keyword recognition at the end of `Lexer::lex_ident`; the string literals
are compared exactly as the Rust `match` does. -/
def keywordOrIdent (s : String) : Token :=
  if s = "def" then Token.kdef
  else if s = "extern" then Token.kext
  else if s = "binary" then Token.binary
  else Token.ident s

/-- One step of the lexer, modelling `Lexer::token`: skip whitespace, peek,
and dispatch on the first character.  The `Except` layer mirrors the
`io::Result<Token>` signature; no branch of the Rust function ever builds an
error, and neither does this model.  Returns the token and the remaining
characters.  CAVEAT: this model segments the input by characters, which
matches the Rust byte-indexed slice `&input[start..self.pos]` only on ASCII
input (where char counts equal byte offsets); on non-ASCII input the Rust
lexer's slice can land inside a multi-byte character and abort the program —
see `rustSliceValid` and the C9 theorem.  Every input used by the other
claims is ASCII. -/
def lexToken (cs : List Char) : Except String Token × List Char :=
  match cs.dropWhile Char.isWhitespace with
  | [] => (Except.ok Token.eof, [])
  | c :: rest =>
    if c = '(' then (Except.ok Token.lparen, rest)
    else if c = ')' then (Except.ok Token.rparen, rest)
    else if c = ',' then (Except.ok Token.comma, rest)
    else if c = '#' then (Except.ok Token.comment, dropComment rest)
    else if c = '.' ∨ c.isDigit then
      (Except.ok (Token.number ((rustParseF64 (c :: rest.takeWhile numCont)).getD 0)),
        rest.dropWhile numCont)
    else if c.isAlpha ∨ c = '_' then
      (Except.ok (keywordOrIdent (String.mk (c :: rest.takeWhile identCont))),
        rest.dropWhile identCont)
    else (Except.ok (Token.op c), rest)

/-- Collecting the lexer's iterator (`Lexer` as `Iterator`, then `collect()`
in `Parser::new`): tokens are accumulated until `EOF` (or an error, which
never occurs).  Fuel bounds the recursion; each produced token consumes at
least one character, so `cs.length + 1` is always enough. -/
def lexAll (fuel : Nat) (cs : List Char) : List Token :=
  match fuel with
  | 0 => []
  | fuel + 1 =>
    match lexToken cs with
    | (Except.ok Token.eof, _) => []
    | (Except.error _, _) => []
    | (Except.ok t, rest) => t :: lexAll fuel rest

/-- Token buffer the parser is constructed over, as in `Parser::new`. -/
def tokenize (s : String) : List Token := lexAll (s.length + 1) s.toList

/-- Total byte length of the UTF-8 encoding of the characters: the length of
the `&str` that `Lexer::new` stores in `self.input` and indexes by byte. -/
def utf8Len (cs : List Char) : Nat := (cs.map Char.utf8Size).sum

/-- Whether byte index `i` lies on a character boundary of the UTF-8
encoding of `cs` — Rust `str::is_char_boundary`, the validity condition of a
byte-range slice of `self.input`. -/
def isCharBoundary : List Char → Nat → Bool
  | _, 0 => true
  | [], _ + 1 => false
  | c :: cs, i + 1 =>
    if i + 1 < c.utf8Size then false else isCharBoundary cs (i + 1 - c.utf8Size)

/-- Validity of the Rust byte slice `&self.input[start..self.pos]` taken by
`Lexer::lex_number` and `Lexer::lex_ident`.  The cursor `self.pos` is
incremented once per CHARACTER by `Lexer::advance`, but Rust string indexing
is by BYTE: the slice aborts the program unless both indices lie on
character boundaries of the input.  On all-ASCII input every char count is a
byte boundary, which is why `lexToken` may model the slice by character
positions there. -/
def rustSliceValid (input : List Char) (start pos : Nat) : Bool :=
  isCharBoundary input start && isCharBoundary input pos

/-- Error kinds of `Parser::log_err`: `PE::Syntax` is reported as
`io::ErrorKind::InvalidData` and `PE::Eof` as `io::ErrorKind::UnexpectedEof`.
`outOfFuel` is the embedding's fuel-exhaustion marker (see the file header). -/
inductive ErrorKind where
  | invalidData
  | unexpectedEof
  | outOfFuel
deriving DecidableEq, Repr

/-- A parser error: a kind together with the message passed to `log_err`. -/
structure PError where
  kind : ErrorKind
  msg : String
deriving DecidableEq, Repr

/-- Parser state (`struct Parser`): the materialized token buffer, the cursor
position, and the shared precedence table (the `&mut HashMap<char, i32>`,
modelled as a function from characters to optional precedences). -/
structure PState where
  tokens : List Token
  pos : Nat
  prec : Char → Option Int

/-- Stateful parser computations: Rust methods taking `&mut self` and
returning `io::Result<α>`.  The final state is kept also on the error path,
because the Rust parser's mutations (cursor moves, precedence-table inserts)
persist across an early `?`-return. -/
abbrev PM (α : Type) : Type := PState → Except PError α × PState

/-- Sequencing of parser computations: the Rust `?` operator. -/
def PM.bindF {α β : Type} (x : PM α) (f : α → PM β) : PM β := fun st =>
  match x st with
  | (Except.ok a, st') => f a st'
  | (Except.error e, st') => (Except.error e, st')

instance : Monad PM where
  pure a := fun st => (Except.ok a, st)
  bind := PM.bindF

/-- Error raised by failed `current`/`advance` calls. -/
def eofErr : PError := ⟨ErrorKind.unexpectedEof, "Unexpected end of file."⟩

/-- Fuel-exhaustion marker of the embedding. -/
def fuelErr : PError := ⟨ErrorKind.outOfFuel, "out of fuel"⟩

/-- Fails with the given error, leaving the state unchanged (an
`Err(self.log_err(..))` return). -/
def throwP {α : Type} (e : PError) : PM α := fun st => (Except.error e, st)

/-- Whether the cursor is at or past the end of the buffer
(`Parser::is_eof`). -/
def isEof (st : PState) : Bool := st.tokens.length ≤ st.pos

/-- The token at the cursor, or the end-of-file error (`Parser::current`). -/
def currentTok (st : PState) : Except PError Token :=
  match st.tokens[st.pos]? with
  | some t => Except.ok t
  | none => Except.error eofErr

/-- `Parser::current` as a parser computation. -/
def current : PM Token := fun st => (currentTok st, st)

/-- `Parser::advance`: the cursor moves forward unconditionally, and the call
fails when the new position is at or past the end of the buffer (note the
cursor move persists even then). -/
def advance : PM Unit := fun st =>
  if isEof { st with pos := st.pos + 1 } then
    (Except.error eofErr, { st with pos := st.pos + 1 })
  else (Except.ok (), { st with pos := st.pos + 1 })

/-- Cursor move whose failure is discarded: the Rust
`let _ = self.advance();` and the bare `self.pos += 1;`. -/
def advanceIgnore : PM Unit := fun st => (Except.ok (), { st with pos := st.pos + 1 })

/-- Precedence of the current token (`Parser::tok_precedence`): `-1` unless
the token is an operator registered in the table. -/
def tokPrecedence (st : PState) : Int :=
  match currentTok st with
  | Except.ok (Token.op c) => (st.prec c).getD (-1)
  | _ => -1

/-- Reads `tok_precedence` as a (never-failing) parser computation. -/
def getTokPrec : PM Int := fun st => (Except.ok (tokPrecedence st), st)

/-- Reads `is_eof` as a (never-failing) parser computation. -/
def isEofM : PM Bool := fun st => (Except.ok (isEof st), st)

/-- Pointwise insert-or-overwrite on the precedence table, the behaviour of
`HashMap::insert` on single-character keys. -/
def insertPrecFun (c : Char) (p : Int) (t : Char → Option Int) : Char → Option Int :=
  fun x => if x = c then some p else t x

/-- The `self.prec.insert(op, prec)` side effect. -/
def insertPrec (c : Char) (p : Int) : PM Unit := fun st =>
  (Except.ok (), { st with prec := insertPrecFun c p st.prec })

/-- Truncation of a (nonnegative) numeric-literal value to a machine-size
natural, the `prec as usize` cast (the lexer never produces a negative
value, so truncation toward zero is the floor). -/
def ratToUsize (q : ℚ) : Nat := q.floor.toNat

/-- Parses a literal number (`Parser::parse_num_expr`).  Note the `?` on the
trailing `advance`: a number at the very end of the buffer makes this fail
with the end-of-file error. -/
def parseNumExpr : PM Expr := do
  let t ← current
  match t with
  | Token.number v => do
    advance
    pure (Expr.number v)
  | _ => throwP ⟨ErrorKind.invalidData, "expected number literal."⟩

mutual

/-- Parses any expression (`Parser::parse_expr`): a unary expression followed
by binary-operator climbing from minimum precedence 0. -/
def parseExpr : Nat → PM Expr
  | 0 => throwP fuelErr
  | f + 1 => do
    let lhs ← parseUnaryExpr f
    parseBinExpr f 0 lhs

/-- Parses a unary expression (`Parser::parse_unary_expr`): a leading
operator character becomes a call to the synthesized `unary<char>` name with
the recursively parsed operand as only argument. -/
def parseUnaryExpr : Nat → PM Expr
  | 0 => throwP fuelErr
  | f + 1 => do
    let t ← current
    match t with
    | Token.op c => do
      advance
      let arg ← parseUnaryExpr f
      pure (Expr.call ("unary".push c) [arg])
    | _ => parsePrimary f

/-- Parses a primary expression (`Parser::parse_primary`). -/
def parsePrimary : Nat → PM Expr
  | 0 => throwP fuelErr
  | f + 1 => do
    let t ← current
    match t with
    | Token.ident _ => parseIdentExpr f
    | Token.number _ => parseNumExpr
    | Token.lparen => parseParenExpr f
    | _ => throwP ⟨ErrorKind.invalidData, "unknown token when expecting an expression"⟩

/-- Parses a parenthesized expression (`Parser::parse_paren_expr`).  Both the
opening and the closing parenthesis are consumed with the failing-at-end
`advance`. -/
def parseParenExpr : Nat → PM Expr
  | 0 => throwP fuelErr
  | f + 1 => do
    let t ← current
    match t with
    | Token.lparen => do
      advance
      let e ← parseExpr f
      let t2 ← current
      match t2 with
      | Token.rparen => do
        advance
        pure e
      | _ =>
        throwP ⟨ErrorKind.invalidData, "Expected ')' character at end of parenthesized expression."⟩
    | _ =>
      throwP ⟨ErrorKind.invalidData, "Expected '(' character at start of parenthesized expression."⟩

/-- Parses an expression starting with an identifier
(`Parser::parse_ident_expr`).  A failing `advance` right after the identifier
is caught and yields a bare variable reference; in the call form, an
immediately following `)` returns an empty-argument call WITHOUT consuming
the `)` (exactly as the Rust early `return` does). -/
def parseIdentExpr : Nat → PM Expr
  | 0 => throwP fuelErr
  | f + 1 => fun st =>
    match currentTok st with
    | Except.error e => (Except.error e, st)
    | Except.ok (Token.ident id) =>
      match advance st with
      | (Except.error _, st1) => (Except.ok (Expr.var id), st1)
      | (Except.ok _, st1) =>
        match currentTok st1 with
        | Except.error e => (Except.error e, st1)
        | Except.ok Token.lparen =>
          (do
            advance
            let t ← current
            match t with
            | Token.rparen => pure (Expr.call id [])
            | _ => parseCallArgs f id [] : PM Expr) st1
        | Except.ok _ => (Except.ok (Expr.var id), st1)
    | Except.ok _ => (Except.error ⟨ErrorKind.invalidData, "Expected identifier"⟩, st)

/-- The argument loop of `parse_ident_expr`: parse an expression, then
require `,` (continue) or `)` (consume it and finish). -/
def parseCallArgs : Nat → String → List Expr → PM Expr
  | 0, _, _ => throwP fuelErr
  | f + 1, name, args => do
    let a ← parseExpr f
    let t ← current
    match t with
    | Token.comma => do
      advance
      parseCallArgs f name (args ++ [a])
    | Token.rparen => do
      advance
      pure (Expr.call name (args ++ [a]))
    | _ => throwP ⟨ErrorKind.invalidData, "Expected ',' character in function call."⟩

/-- Precedence climbing (`Parser::parse_bin_expr`): each loop iteration of
the Rust code is one recursive call with the folded left-hand side. -/
def parseBinExpr : Nat → Int → Expr → PM Expr
  | 0, _, _ => throwP fuelErr
  | f + 1, minPrec, lhs => do
    let currPrec ← getTokPrec
    let e ← isEofM
    if currPrec < minPrec ∨ e then pure lhs
    else do
      let t ← current
      match t with
      | Token.op c => do
        advance
        let rhs ← parseUnaryExpr f
        let nextPrec ← getTokPrec
        let rhs2 ← if currPrec < nextPrec then parseBinExpr f (currPrec + 1) rhs else pure rhs
        parseBinExpr f minPrec (Expr.binary c lhs rhs2)
      | _ => throwP ⟨ErrorKind.invalidData, "Invalid operator."⟩

end

/-- The parameter loop of `parse_prototype`: an identifier, then `)` (finish,
consuming it while discarding an end-of-buffer failure) or `,` (likewise
discarding, then continue). -/
def parseProtoArgs : Nat → List String → PM (List String)
  | 0, _ => throwP fuelErr
  | f + 1, args => do
    let t ← current
    match t with
    | Token.ident name => do
      advance
      let t2 ← current
      match t2 with
      | Token.rparen => do
        advanceIgnore
        pure (args ++ [name])
      | Token.comma => do
        advanceIgnore
        parseProtoArgs f (args ++ [name])
      | _ => throwP ⟨ErrorKind.invalidData, "Expected ',' or ')' character in prototype declaration."⟩
    | _ => throwP ⟨ErrorKind.invalidData, "Expected identifier in parameter declaration."⟩

/-- The tail of `parse_prototype` shared by its ordinary and custom-operator
branches: the `(`, then either an immediate `)` (empty parameter list,
consumed with a failing-at-end `advance`) or the parameter loop. -/
def protoTail (f : Nat) (id : String) (isOperator : Bool) (precN : Nat) : PM Prototype := do
  let t ← current
  match t with
  | Token.lparen => do
    advance
    let t2 ← current
    match t2 with
    | Token.rparen => do
      advance
      pure ⟨id, [], precN, isOperator⟩
    | _ => do
      let args ← parseProtoArgs f []
      pure ⟨id, args, precN, isOperator⟩
  | _ => throwP ⟨ErrorKind.invalidData, "Expected '(' character in prototype declaration."⟩

/-- Parses a prototype (`Parser::parse_prototype`).  The `binary`-keyword
branch reads the operator character, optionally a numeric literal as the
declared precedence (default 0), synthesizes the name `binary<char>`, and
inserts the pair into the shared precedence table as a side effect before
the parameter list is parsed. -/
def parsePrototype (f : Nat) : PM Prototype := do
  let t ← current
  match t with
  | Token.ident id => do
    advance
    protoTail f id false 0
  | Token.binary => do
    advance
    let t2 ← current
    match t2 with
    | Token.op c => do
      advance
      let t3 ← current
      match t3 with
      | Token.number p => do
        advance
        insertPrec c (Int.ofNat (ratToUsize p))
        protoTail f ("binary".push c) true (ratToUsize p)
      | _ => do
        insertPrec c 0
        protoTail f ("binary".push c) true 0
    | _ => throwP ⟨ErrorKind.invalidData, "Expected operator in custom operator declaration."⟩
  | _ => throwP ⟨ErrorKind.invalidData, "Expected identifier in prototype declaration."⟩

/-- Parses `'def' prototype expression` (`Parser::parse_definition`); the
`def` keyword is eaten with a bare `self.pos += 1`. -/
def parseDefinition (f : Nat) : PM FunctionAST := do
  advanceIgnore
  let proto ← parsePrototype f
  let body ← parseExpr f
  pure ⟨proto, some body, false⟩

/-- Parses an external declaration (`Parser::parse_extern`, whose Rust name
cannot be used in Lean): the keyword is eaten with a bare `self.pos += 1`,
then a prototype with no body. -/
def parseExt (f : Nat) : PM FunctionAST := do
  advanceIgnore
  let proto ← parsePrototype f
  pure ⟨proto, none, false⟩

/-- Parses a top-level expression (`Parser::parse_toplevel_expr`), wrapping
it in an anonymous function named `anon`. -/
def parseToplevelExpr (f : Nat) : PM FunctionAST := do
  let body ← parseExpr f
  pure ⟨⟨"anon", [], 0, false⟩, some body, true⟩

/-- The dispatching entry point (`Parser::parse`): definition, external
declaration, or top-level expression, followed by the leftover-token check
(which reports kind `PE::Eof` with the message below). -/
def parse (f : Nat) : PM FunctionAST := do
  let t ← current
  let r ← (match t with
    | Token.kdef => parseDefinition f
    | Token.kext => parseExt f
    | _ => parseToplevelExpr f)
  let e ← isEofM
  if e then pure r
  else throwP ⟨ErrorKind.unexpectedEof, "Unexpected token after parsed expression."⟩

/-- The default precedence table seeded in `main.rs`:
`=`→2, `<`→10, `+`→20, `-`→20, `*`→40, `/`→40. -/
def defaultPrec : Char → Option Int := fun c =>
  if c = '=' then some 2
  else if c = '<' then some 10
  else if c = '+' then some 20
  else if c = '-' then some 20
  else if c = '*' then some 40
  else if c = '/' then some 40
  else none

/-- The parser state `Parser::new(input, prec)` starts from: the token
buffer of the input, cursor 0, and the given table. -/
def mkState (s : String) (prec : Char → Option Int) : PState :=
  ⟨tokenize s, 0, prec⟩

/-- A parser computation that never changes the precedence table. -/
def PrecInv {α : Type} (m : PM α) : Prop :=
  ∀ st, ((m st).2).prec = st.prec

/-- A parser computation that never removes a precedence-table entry. -/
def PrecMono {α : Type} (m : PM α) : Prop :=
  ∀ st c, (st.prec c).isSome = true → (((m st).2).prec c).isSome = true

/-- A parser computation that leaves the precedence table unchanged or
performs a single insert into it. -/
def InsertsAtMostOne {α : Type} (m : PM α) : Prop :=
  ∀ st, ((m st).2).prec = st.prec ∨
    ∃ c p, ((m st).2).prec = insertPrecFun c p st.prec

lemma bindF_eq {α β : Type} (x : PM α) (f : α → PM β) (st : PState) :
    (x >>= f) st = match x st with
      | (Except.ok a, st') => f a st'
      | (Except.error e, st') => (Except.error e, st') := rfl

lemma precInv_pure {α : Type} (a : α) : PrecInv (pure a : PM α) := fun _ => rfl

lemma precInv_throwP {α : Type} {e : PError} : PrecInv (throwP e : PM α) := fun _ => rfl

lemma precInv_current : PrecInv current := fun _ => rfl

lemma precInv_getTokPrec : PrecInv getTokPrec := fun _ => rfl

lemma precInv_isEofM : PrecInv isEofM := fun _ => rfl

lemma precInv_advance : PrecInv advance := by
  intro st
  unfold advance
  split <;> rfl

lemma precInv_advanceIgnore : PrecInv advanceIgnore := fun _ => rfl

lemma precInv_bind {α β : Type} {x : PM α} {f : α → PM β}
    (hx : PrecInv x) (hf : ∀ a, PrecInv (f a)) : PrecInv (x >>= f) := by
  intro st
  rw [bindF_eq]
  rcases hxs : x st with ⟨r, st'⟩
  have hst' : st'.prec = st.prec := by
    have h := hx st; rw [hxs] at h; exact h
  cases r with
  | ok a => exact (hf a st').trans hst'
  | error e => exact hst'

lemma precInv_parseNumExpr : PrecInv parseNumExpr := by
  unfold parseNumExpr
  refine precInv_bind precInv_current fun t => ?_
  cases t <;> first
    | exact precInv_throwP
    | exact precInv_bind precInv_advance fun _ => precInv_pure _

lemma precInv_exprFns : ∀ f : Nat,
    PrecInv (parseExpr f) ∧ PrecInv (parseUnaryExpr f) ∧ PrecInv (parsePrimary f) ∧
    PrecInv (parseParenExpr f) ∧ PrecInv (parseIdentExpr f) ∧
    (∀ nm args, PrecInv (parseCallArgs f nm args)) ∧
    (∀ p l, PrecInv (parseBinExpr f p l)) := by
  intro f
  induction f with
  | zero =>
    refine ⟨?_, ?_, ?_, ?_, ?_, fun _ _ => ?_, fun _ _ => ?_⟩ <;>
      simp only [parseExpr, parseUnaryExpr, parsePrimary, parseParenExpr, parseIdentExpr,
        parseCallArgs, parseBinExpr] <;>
      exact precInv_throwP
  | succ f ih =>
    obtain ⟨ihE, ihU, ihP, ihPar, ihI, ihCA, ihB⟩ := ih
    refine ⟨?_, ?_, ?_, ?_, ?_, fun nm args => ?_, fun p l => ?_⟩
    · simp only [parseExpr]
      exact precInv_bind ihU fun lhs => ihB 0 lhs
    · simp only [parseUnaryExpr]
      refine precInv_bind precInv_current fun t => ?_
      cases t <;> first
        | exact ihP
        | exact precInv_bind precInv_advance fun _ =>
            precInv_bind ihU fun _ => precInv_pure _
    · simp only [parsePrimary]
      refine precInv_bind precInv_current fun t => ?_
      cases t <;> first
        | exact ihI
        | exact precInv_parseNumExpr
        | exact ihPar
        | exact precInv_throwP
    · simp only [parseParenExpr]
      refine precInv_bind precInv_current fun t => ?_
      cases t <;> try exact precInv_throwP
      refine precInv_bind precInv_advance fun _ => ?_
      refine precInv_bind ihE fun e => ?_
      refine precInv_bind precInv_current fun t2 => ?_
      cases t2 <;> try exact precInv_throwP
      exact precInv_bind precInv_advance fun _ => precInv_pure _
    · simp only [parseIdentExpr]
      intro st
      dsimp only
      have hblock : ∀ id : String, PrecInv ((do
          advance
          let t ← current
          match t with
          | Token.rparen => pure (Expr.call id [])
          | _ => parseCallArgs f id [] : PM Expr)) := by
        intro id
        refine precInv_bind precInv_advance fun _ => ?_
        refine precInv_bind precInv_current fun t3 => ?_
        cases t3 <;> first
          | exact precInv_pure _
          | exact ihCA id []
      cases h : currentTok st with
      | error e => rfl
      | ok t =>
        cases t <;> try rfl
        case ident id =>
          dsimp only
          rcases ha : advance st with ⟨r1, st1⟩
          have hst1 : st1.prec = st.prec := by
            have h1 := precInv_advance st; rw [ha] at h1; exact h1
          cases r1 with
          | error e =>
            dsimp only
            exact hst1
          | ok u =>
            dsimp only
            split
            · exact hst1
            · exact (hblock id st1).trans hst1
            · exact hst1
    · simp only [parseCallArgs]
      refine precInv_bind ihE fun a => ?_
      refine precInv_bind precInv_current fun t => ?_
      cases t <;> first
        | exact precInv_throwP
        | exact precInv_bind precInv_advance fun _ => ihCA nm (args ++ [a])
        | exact precInv_bind precInv_advance fun _ => precInv_pure _
    · simp only [parseBinExpr]
      refine precInv_bind precInv_getTokPrec fun cp => ?_
      refine precInv_bind precInv_isEofM fun e => ?_
      split
      · exact precInv_pure _
      · refine precInv_bind precInv_current fun t => ?_
        cases t <;> try exact precInv_throwP
        refine precInv_bind precInv_advance fun _ => ?_
        refine precInv_bind ihU fun rhs => ?_
        refine precInv_bind precInv_getTokPrec fun np => ?_
        split
        · exact precInv_bind (ihB _ _) fun rhs2 => ihB _ _
        · exact precInv_bind (precInv_pure _) fun rhs2 => ihB _ _

lemma precInv_parseProtoArgs : ∀ (f : Nat) (args : List String),
    PrecInv (parseProtoArgs f args) := by
  intro f
  induction f with
  | zero =>
    intro args
    simp only [parseProtoArgs]
    exact precInv_throwP
  | succ f ih =>
    intro args
    simp only [parseProtoArgs]
    refine precInv_bind precInv_current fun t => ?_
    cases t <;> try exact precInv_throwP
    refine precInv_bind precInv_advance fun _ => ?_
    refine precInv_bind precInv_current fun t2 => ?_
    cases t2 <;> first
      | exact precInv_throwP
      | exact precInv_bind precInv_advanceIgnore fun _ => ih _
      | exact precInv_bind precInv_advanceIgnore fun _ => precInv_pure _

lemma precInv_protoTail (f : Nat) (id : String) (b : Bool) (n : Nat) :
    PrecInv (protoTail f id b n) := by
  unfold protoTail
  refine precInv_bind precInv_current fun t => ?_
  cases t <;> try exact precInv_throwP
  refine precInv_bind precInv_advance fun _ => ?_
  refine precInv_bind precInv_current fun t2 => ?_
  cases t2 <;> first
    | exact precInv_bind precInv_advance fun _ => precInv_pure _
    | exact precInv_bind (precInv_parseProtoArgs f []) fun args => precInv_pure _

lemma iam_of_precInv {α : Type} {m : PM α} (h : PrecInv m) : InsertsAtMostOne m :=
  fun st => Or.inl (h st)

lemma iam_insertPrec (c : Char) (p : Int) : InsertsAtMostOne (insertPrec c p) :=
  fun _ => Or.inr ⟨c, p, rfl⟩

lemma iam_bind_left {α β : Type} {x : PM α} {f : α → PM β}
    (hx : PrecInv x) (hf : ∀ a, InsertsAtMostOne (f a)) : InsertsAtMostOne (x >>= f) := by
  intro st
  rw [bindF_eq]
  rcases hxs : x st with ⟨r, st'⟩
  have hst' : st'.prec = st.prec := by
    have h := hx st; rw [hxs] at h; exact h
  cases r with
  | ok a =>
    rcases hf a st' with h1 | ⟨c, p, h1⟩
    · exact Or.inl (h1.trans hst')
    · refine Or.inr ⟨c, p, ?_⟩
      rw [← hst']
      exact h1
  | error e => exact Or.inl hst'

lemma iam_bind_right {α β : Type} {x : PM α} {f : α → PM β}
    (hx : InsertsAtMostOne x) (hf : ∀ a, PrecInv (f a)) : InsertsAtMostOne (x >>= f) := by
  intro st
  rw [bindF_eq]
  rcases hxs : x st with ⟨r, st'⟩
  have hx' := hx st
  rw [hxs] at hx'
  cases r with
  | ok a =>
    rcases hx' with h1 | ⟨c, p, h1⟩
    · exact Or.inl ((hf a st').trans h1)
    · exact Or.inr ⟨c, p, (hf a st').trans h1⟩
  | error e => exact hx'

lemma iam_parsePrototype (f : Nat) : InsertsAtMostOne (parsePrototype f) := by
  unfold parsePrototype
  refine iam_bind_left precInv_current fun t => ?_
  cases t <;> try exact iam_of_precInv precInv_throwP
  case ident id =>
    exact iam_of_precInv (precInv_bind precInv_advance fun _ => precInv_protoTail f id false 0)
  case binary =>
    refine iam_bind_left precInv_advance fun _ => ?_
    refine iam_bind_left precInv_current fun t2 => ?_
    cases t2 <;> try exact iam_of_precInv precInv_throwP
    case op c =>
      refine iam_bind_left precInv_advance fun _ => ?_
      refine iam_bind_left precInv_current fun t3 => ?_
      cases t3 <;> first
        | exact iam_bind_right (iam_insertPrec c 0) fun _ => precInv_protoTail f _ true 0
        | exact iam_bind_left precInv_advance fun _ =>
            iam_bind_right (iam_insertPrec c _) fun _ => precInv_protoTail f _ true _

lemma parsePrototype_precInv_of_not_binary (f : Nat) :
    ∀ st : PState, st.tokens[st.pos]? ≠ some Token.binary →
      ((parsePrototype f st).2).prec = st.prec := by
  intro st hne
  unfold parsePrototype
  rw [bindF_eq]
  have hc : current st = (currentTok st, st) := rfl
  rw [hc]
  cases h : currentTok st with
  | error e => rfl
  | ok t =>
    cases t <;> try rfl
    case ident id =>
      exact (precInv_bind precInv_advance fun _ => precInv_protoTail f id false 0) st
    case binary =>
      exfalso
      apply hne
      unfold currentTok at h
      cases h2 : st.tokens[st.pos]? with
      | none => rw [h2] at h; cases h
      | some t2 => rw [h2] at h; injection h with h3; rw [h3]

lemma iam_parseDefinition (f : Nat) : InsertsAtMostOne (parseDefinition f) := by
  unfold parseDefinition
  refine iam_bind_left precInv_advanceIgnore fun _ => ?_
  refine iam_bind_right (iam_parsePrototype f) fun proto => ?_
  exact precInv_bind (precInv_exprFns f).1 fun body => precInv_pure _

lemma iam_parseExt (f : Nat) : InsertsAtMostOne (parseExt f) := by
  unfold parseExt
  refine iam_bind_left precInv_advanceIgnore fun _ => ?_
  exact iam_bind_right (iam_parsePrototype f) fun proto => precInv_pure _

lemma precInv_parseToplevelExpr (f : Nat) : PrecInv (parseToplevelExpr f) := by
  unfold parseToplevelExpr
  exact precInv_bind (precInv_exprFns f).1 fun body => precInv_pure _

lemma iam_parse (f : Nat) : InsertsAtMostOne (parse f) := by
  unfold parse
  refine iam_bind_left precInv_current fun t => ?_
  refine iam_bind_right ?_ fun r => ?_
  · cases t <;> first
      | exact iam_parseDefinition f
      | exact iam_parseExt f
      | exact iam_of_precInv (precInv_parseToplevelExpr f)
  · refine precInv_bind precInv_isEofM fun e => ?_
    split
    · exact precInv_pure _
    · exact precInv_throwP

lemma precMono_of_iam {α : Type} {m : PM α} (h : InsertsAtMostOne m) : PrecMono m := by
  intro st c hc
  rcases h st with he | ⟨c', p, he⟩
  · rw [he]; exact hc
  · rw [he]
    unfold insertPrecFun
    by_cases hcc : c = c' <;> simp [hcc, hc]

/-- C1: with the default table (`+` at 20, `*` at 40) the climbing algorithm
nests the tighter operator deeper, as the trailing-terminator run shows; but
on the exact input `1+2*3` the parse FAILS with the end-of-file error,
because `parse_num_expr` propagates the failure of its trailing `advance`
when the final token is a number. -/
theorem c1_expr_ending_in_number_fails_eof :
    (parseExpr 32 (mkState "1+2*3" defaultPrec)).1 = Except.error eofErr ∧
    (parseExpr 32 (mkState "1+2*3;" defaultPrec)).1 =
      Except.ok (Expr.binary '+' (Expr.number 1)
        (Expr.binary '*' (Expr.number 2) (Expr.number 3))) := ⟨rfl, rfl⟩

/-- C2, counterexample: parsing `def binary: 1 (a b) a+b` does NOT succeed:
the parameter loop of `parse_prototype` demands a comma or `)` after each
parameter, so the space-separated list `(a b)` is rejected with the
invalid-data (PE::Syntax) error. -/
theorem c2_space_separated_params_fail :
    (parseDefinition 32 (mkState "def binary: 1 (a b) a+b" defaultPrec)).1 =
      Except.error ⟨ErrorKind.invalidData,
        "Expected ',' or ')' character in prototype declaration."⟩ := rfl

/-- C2, amended: even the failing space-separated declaration has already
inserted `(':', 1)` into the shared table as a side effect; with
comma-separated parameters, `def binary: 1 (a, b) a+b` parses successfully
to the prototype `binary:` with precedence 1, inserts `(':', 1)`, and `:`
is afterwards usable as an infix operator in expressions parsed with the
same table (here `x:y`). -/
theorem c2_custom_operator_registration :
    ((parseDefinition 32 (mkState "def binary: 1 (a b) a+b" defaultPrec)).2).prec ':' =
      some 1 ∧
    (parseDefinition 32 (mkState "def binary: 1 (a, b) a+b" defaultPrec)).1 =
      Except.ok ⟨⟨"binary:", ["a", "b"], 1, true⟩,
        some (Expr.binary '+' (Expr.var "a") (Expr.var "b")), false⟩ ∧
    ((parseDefinition 32 (mkState "def binary: 1 (a, b) a+b" defaultPrec)).2).prec ':' =
      some 1 ∧
    (parseExpr 32 ⟨tokenize "x:y", 0,
      ((parseDefinition 32 (mkState "def binary: 1 (a, b) a+b" defaultPrec)).2).prec⟩).1 =
      Except.ok (Expr.binary ':' (Expr.var "x") (Expr.var "y")) :=
  ⟨rfl, rfl, rfl, rfl⟩

/-- C3: equal-precedence chains group left-associatively, as the
trailing-terminator run shows; but on the exact input `1-2-3` the parse
FAILS with the end-of-file error, for the same `parse_num_expr` reason as
in C1. -/
theorem c3_equal_precedence_left_assoc :
    (parseExpr 32 (mkState "1-2-3" defaultPrec)).1 = Except.error eofErr ∧
    (parseExpr 32 (mkState "1-2-3;" defaultPrec)).1 =
      Except.ok (Expr.binary '-'
        (Expr.binary '-' (Expr.number 1) (Expr.number 2)) (Expr.number 3)) := ⟨rfl, rfl⟩

/-- C4: the precedence table is mutated only by custom-operator prototype
parsing.  All the expression-parsing operations, the number parser, the
cursor primitives and top-level-expression parsing leave the table exactly
unchanged; `parse_prototype` leaves it unchanged whenever the token at the
cursor is not the `binary` keyword; every entry point performs at most one
insert (the one in the `binary` branch of `parse_prototype`); and no
operation ever removes an entry (every registered key stays registered). -/
theorem c4_precedence_table_frame :
    (∀ f, PrecInv (parseExpr f)) ∧
    (∀ f, PrecInv (parseUnaryExpr f)) ∧
    (∀ f, PrecInv (parsePrimary f)) ∧
    (∀ f, PrecInv (parseParenExpr f)) ∧
    (∀ f, PrecInv (parseIdentExpr f)) ∧
    (∀ f nm args, PrecInv (parseCallArgs f nm args)) ∧
    (∀ f p l, PrecInv (parseBinExpr f p l)) ∧
    PrecInv parseNumExpr ∧
    (∀ f, PrecInv (parseToplevelExpr f)) ∧
    (∀ f st, st.tokens[st.pos]? ≠ some Token.binary →
      ((parsePrototype f st).2).prec = st.prec) ∧
    (∀ f, InsertsAtMostOne (parsePrototype f)) ∧
    (∀ f, InsertsAtMostOne (parseDefinition f)) ∧
    (∀ f, InsertsAtMostOne (parseExt f)) ∧
    (∀ f, InsertsAtMostOne (parse f)) ∧
    (∀ f, PrecMono (parsePrototype f)) ∧
    (∀ f, PrecMono (parseDefinition f)) ∧
    (∀ f, PrecMono (parseExt f)) ∧
    (∀ f, PrecMono (parse f)) :=
  ⟨fun f => (precInv_exprFns f).1,
   fun f => (precInv_exprFns f).2.1,
   fun f => (precInv_exprFns f).2.2.1,
   fun f => (precInv_exprFns f).2.2.2.1,
   fun f => (precInv_exprFns f).2.2.2.2.1,
   fun f => (precInv_exprFns f).2.2.2.2.2.1,
   fun f => (precInv_exprFns f).2.2.2.2.2.2,
   precInv_parseNumExpr,
   precInv_parseToplevelExpr,
   parsePrototype_precInv_of_not_binary,
   iam_parsePrototype,
   iam_parseDefinition,
   iam_parseExt,
   iam_parse,
   fun f => precMono_of_iam (iam_parsePrototype f),
   fun f => precMono_of_iam (iam_parseDefinition f),
   fun f => precMono_of_iam (iam_parseExt f),
   fun f => precMono_of_iam (iam_parse f)⟩

/-- C4, witness: the frame property instantiated at concrete inputs — an
ordinary prototype leaves the table untouched, and parsing keeps the
default `+` entry registered. -/
theorem c4_precedence_table_frame_witness :
    ((parsePrototype 9 (mkState "foo(a)" defaultPrec)).2).prec =
      (mkState "foo(a)" defaultPrec).prec ∧
    (((parse 9 (mkState "1;" defaultPrec)).2).prec '+').isSome = true :=
  ⟨c4_precedence_table_frame.2.2.2.2.2.2.2.2.2.1 9 (mkState "foo(a)" defaultPrec)
      (by decide),
   c4_precedence_table_frame.2.2.2.2.2.2.2.2.2.2.2.2.2.2.2.2.2 9
      (mkState "1;" defaultPrec) '+' rfl⟩

/-- C5, counterexample: parsing `foo(` does not fail with the invalid-data
(PE::Syntax) condition under any message. -/
theorem c5_foo_open_not_invalid_data :
    ¬ ∃ m : String, (parse 32 (mkState "foo(" defaultPrec)).1 =
      Except.error ⟨ErrorKind.invalidData, m⟩ := by
  rintro ⟨m, h⟩
  have hres : (parse 32 (mkState "foo(" defaultPrec)).1 = Except.error eofErr := rfl
  rw [hres] at h
  injection h with h1
  exact ErrorKind.noConfusion (congrArg PError.kind h1)

/-- C5, amended: parsing `foo(` fails with the End-of-File condition: the
`advance` past the `(` lands exactly at the end of the token buffer and
its failure propagates through the `?` in `parse_ident_expr`. -/
theorem c5_foo_open_fails_with_eof :
    (parse 32 (mkState "foo(" defaultPrec)).1 = Except.error eofErr := rfl

/-- C6: the empty-argument call `foo()` is returned by `parse_ident_expr` as
`Call("foo", [])` WITHOUT consuming the closing parenthesis (the cursor
stays at position 2, the index of the `)` token), so the dispatching
`parse` then fails its leftover-token check instead of succeeding. -/
theorem c6_empty_call_leaves_rparen_unconsumed :
    (parseIdentExpr 32 (mkState "foo()" defaultPrec)).1 =
      Except.ok (Expr.call "foo" []) ∧
    ((parseIdentExpr 32 (mkState "foo()" defaultPrec)).2).pos = 2 ∧
    tokenize "foo()" = [Token.ident "foo", Token.lparen, Token.rparen] ∧
    (parse 32 (mkState "foo()" defaultPrec)).1 =
      Except.error ⟨ErrorKind.unexpectedEof, "Unexpected token after parsed expression."⟩ :=
  ⟨rfl, rfl, rfl, rfl⟩

/-- C7: with no `!` entry in the default table, `!x` parses as a call to the
synthesized name `unary!` with the single argument `Variable("x")`. -/
theorem c7_unary_call_synthesis :
    defaultPrec '!' = none ∧
    (parseExpr 32 (mkState "!x" defaultPrec)).1 =
      Except.ok (Expr.call "unary!" [Expr.var "x"]) := ⟨rfl, rfl⟩

/-- C8: the slice `1a` (a maximal dot-or-hex-digit run starting from the
digit `1`) does not parse as a floating-point value, and the lexer yields
the single token `Number(0.0)` for the input `1a` instead of failing. -/
theorem c8_malformed_number_yields_zero :
    rustParseF64 "1a".toList = none ∧
    tokenize "1a" = [Token.number 0] := ⟨rfl, rfl⟩

/-- C9: the claim is false of the program — lexing is NOT total.  On the
input `aé` the identifier scan of `lex_ident` consumes both characters
(Rust's Unicode `char::is_alphanumeric` accepts `é`), leaving the
char-counted cursor `self.pos` at 2, and `lex_ident` then takes the byte
slice `&self.input[0..2]`; byte index 2 is not a character boundary of the
two-character, three-byte input (`é` occupies two bytes), so the slice
aborts the program and no token is returned.  The conjuncts evaluate the
slicing model at exactly that input: the byte range 0..2 the lexer uses is
invalid, while the genuine boundaries 0, 1 and 3 of `aé` are valid. -/
theorem c9_lexer_panics_on_multibyte_ident :
    rustSliceValid "aé".toList 0 2 = false ∧
    Char.utf8Size 'é' = 2 ∧
    utf8Len "aé".toList = 3 ∧
    rustSliceValid "aé".toList 0 0 = true ∧
    rustSliceValid "aé".toList 0 1 = true ∧
    rustSliceValid "aé".toList 0 3 = true := by decide

/-- C10: `advance` reports the End-of-File condition as soon as the cursor
lands exactly on the end of the token buffer, and consequently parsing the
complete well-formed expression `(1+2)` — whose final token is the closing
parenthesis that `parse_paren_expr` unconditionally advances past — fails
with the End-of-File error instead of succeeding. -/
theorem c10_advance_eof_at_boundary :
    (∀ st : PState, st.pos + 1 = st.tokens.length →
      (advance st).1 = Except.error eofErr) ∧
    (parseToplevelExpr 32 (mkState "(1+2)" defaultPrec)).1 = Except.error eofErr := by
  constructor
  · intro st h
    have hEof : isEof { st with pos := st.pos + 1 } = true := by
      simp [isEof, ← h]
    unfold advance
    simp [hEof]
  · rfl

/-- C10, witness: the boundary statement applied to a one-token buffer with
the cursor at position 0. -/
theorem c10_advance_eof_at_boundary_witness :
    (advance ⟨[Token.lparen], 0, defaultPrec⟩).1 = Except.error eofErr :=
  c10_advance_eof_at_boundary.1 ⟨[Token.lparen], 0, defaultPrec⟩ rfl


end Kaleidoscope
